import Mathlib

/-!
Shallow embedding of the `vault-cleaner` Obsidian plugin core
(`FileScanner` in the scanner module, plus the delete-view gate in the
results view): reference resolution, file classification, bounded-depth
directory walking, and deletion execution.

Modelling conventions:
* Vault-relative paths are modelled as segment lists (`List String`);
  the source's `join(dirPath, entry.name)` followed by
  `getRelativePath` (strip the vault prefix and the leading separator)
  corresponds to appending one segment, and the slash-separated string
  form the source hands to Obsidian APIs is `String.intercalate "/"`.
* The host regular-expression engine (`new RegExp` + `test`) is an
  external primitive, modelled as a parameter
  `compile : String → Option (String → Bool)`; `none` models a pattern
  source on which the `RegExp` constructor throws.
* `fs.stat` is modelled by the `Option Nat` stat result carried on each
  file node (`none` = stat throws); `fs.readdir` failure is the
  `badDir` node constructor.
* `console.warn` calls are modelled by returning a list of `Warn`
  values alongside the boolean result.
-/

/-- `'file' | 'directory'` discriminator of `ScanItem.type`. -/
inductive ItemType where
  | file
  | directory
deriving DecidableEq, Repr

/-- `ScanItem` from the plugin's type definitions (path modelled as
segment list, see module docstring). -/
structure ScanItem where
  path : List String
  name : String
  type : ItemType
  size : Nat
  selected : Bool
deriving DecidableEq, Repr

/-- `ScanResult` from the plugin's type definitions. -/
structure ScanResult where
  emptyDirectories : List ScanItem
  unlinkedFiles : List ScanItem
  totalCount : Nat
  totalSize : Nat
deriving DecidableEq, Repr

/-- The per-document metadata cache entry: `cache.links` and
`cache.embeds`, each reduced to its `link` target string (the only
field the scanner reads). -/
structure Cache where
  links : List String
  embeds : List String
deriving DecidableEq, Repr

/-- A `TFile` tracked by the vault: its vault path and its
extension-less `basename` (the only fields the scanner reads). -/
structure TFileM where
  path : String
  basename : String
deriving DecidableEq, Repr

/-- The slice of the Obsidian host the scanner consults:
`vault.getAbstractFileByPath` (lookup in `trackedFiles`),
`vault.getMarkdownFiles` (`markdownFiles`),
`metadataCache.getFileCache` (`fileCache`, keyed by path), and the
global `resolvedLinks` / `unresolvedLinks` maps
(source path → (target → count)). -/
structure ObsidianEnv where
  trackedFiles : List TFileM
  markdownFiles : List TFileM
  fileCache : String → Option Cache
  resolvedLinks : List (String × List (String × Nat))
  unresolvedLinks : List (String × List (String × Nat))

/-- JS truthiness of `links[relativePath]` for one link map: the key is
present and its count is nonzero (a `0` count is falsy). -/
def linkMapHas (m : List (String × List (String × Nat))) (p : String) : Bool :=
  m.any fun src =>
    match src.2.find? (fun e => e.1 == p) with
    | some e => e.2 != 0
    | none => false

/-- `checkExternalFileReferences`: for a path outside the vault index,
scan the resolved then the unresolved link map. -/
def checkExternalFileReferences (env : ObsidianEnv) (relativePath : String) : Bool :=
  linkMapHas env.resolvedLinks relativePath || linkMapHas env.unresolvedLinks relativePath

/-- Step 2 of `isReferencedByObsidian`: the cached document at `q` has
links or embeds (`cache.links?.length > 0 || cache.embeds?.length > 0`;
a missing cache counts as no structure). -/
def cacheOwnStructure (env : ObsidianEnv) (q : String) : Bool :=
  match env.fileCache q with
  | some cache => cache.links.length > 0 || cache.embeds.length > 0
  | none => false

/-- Step 3 of `isReferencedByObsidian`: the loop over
`vault.getMarkdownFiles()` looking for a link or embed whose target
equals the relative path or the file's basename. -/
def backlinkScan (env : ObsidianEnv) (relativePath : String) (file : TFileM) : Bool :=
  env.markdownFiles.any fun src =>
    match env.fileCache src.path with
    | some c =>
        c.links.any (fun l => l == relativePath || l == file.basename) ||
        c.embeds.any (fun l => l == relativePath || l == file.basename)
    | none => false

/-- `isReferencedByObsidian`, translated check by check:
1. resolve the path to a tracked `TFile` (else fall back to
   `checkExternalFileReferences`);
2. if the file's own cache has any links or embeds, referenced;
3. if any markdown file's cache has a link or embed whose target equals
   the path or the file's basename, referenced;
4. if any source in `resolvedLinks` maps to the path (truthily),
   referenced; otherwise not. -/
def isReferencedByObsidian (env : ObsidianEnv) (relativePath : String) : Bool :=
  match env.trackedFiles.find? (fun f => f.path == relativePath) with
  | none => checkExternalFileReferences env relativePath
  | some file =>
    if cacheOwnStructure env file.path then
      true
    else if backlinkScan env relativePath file then
      true
    else
      linkMapHas env.resolvedLinks relativePath

/-- `CleanFilesSettings` fields the scanner reads. -/
structure CleanFilesSettings where
  cleanablePattern : String
  protectedPattern : String
  maxScanDepth : Nat
  excludeHidden : Bool
  minFileSize : Nat
deriving Repr

/-- `ScanConfig`. -/
structure ScanConfig where
  maxDepth : Nat
  excludeHidden : Bool
  minFileSize : Nat
deriving DecidableEq, Repr

/-- `Partial<ScanConfig>` for per-call overrides. -/
structure PartialScanConfig where
  maxDepth : Option Nat
  excludeHidden : Option Bool
  minFileSize : Option Nat
deriving Repr

/-- The config resolution at the top of `scanFiles`
(`config?.field ?? this.settings.field`). -/
def resolveScanConfig (settings : CleanFilesSettings) (config : PartialScanConfig) : ScanConfig :=
  { maxDepth := config.maxDepth.getD settings.maxScanDepth
    excludeHidden := config.excludeHidden.getD settings.excludeHidden
    minFileSize := config.minFileSize.getD settings.minFileSize }

/-- Model of JS `String.prototype.trim`: drop whitespace from both
ends (stated over the character list so that it evaluates by kernel
reduction). -/
def strTrim (s : String) : String :=
  ⟨(((s.data.dropWhile Char.isWhitespace).reverse.dropWhile Char.isWhitespace)).reverse⟩

/-- Model of JS `String.prototype.startsWith`. -/
def strStartsWith (s pre : String) : Bool :=
  pre.data.isPrefixOf s.data

/-- The `console.warn` events of the classifier and walker. -/
inductive Warn where
  | invalidProtectedPattern
  | invalidCleanablePattern
deriving DecidableEq, Repr

/-- One guarded pattern check of `isUnlinkedFile`: JS truthiness of
`pattern && pattern.trim()`, then compile inside `try` (compile
failure logs `w` and counts as no match), then `test(fileName)`. -/
def patternMatchResult (compile : String → Option (String → Bool))
    (pat fileName : String) (w : Warn) : Bool × List Warn :=
  if !pat.isEmpty && !(strTrim pat).isEmpty then
    match compile pat with
    | some re => (re fileName, [])
    | none => (false, [w])
  else
    (false, [])

/-- `isUnlinkedFile`: stat (failure → `false`), minimum-size filter,
unconditional reference check, protected pattern, cleanable pattern,
default deny. `statSize` is the result of `fs.stat(filePath).size`
(`none` = stat throws); `relativePath` is the rendered vault-relative
path handed to `isReferencedByObsidian`. Returns the decision and the
logged warnings. -/
def isUnlinkedFile (compile : String → Option (String → Bool)) (env : ObsidianEnv)
    (settings : CleanFilesSettings) (statSize : Option Nat)
    (relativePath fileName : String) (config : ScanConfig) : Bool × List Warn :=
  match statSize with
  | none => (false, [])
  | some size =>
    if size < config.minFileSize then
      (false, [])
    else if isReferencedByObsidian env relativePath then
      (false, [])
    else
      let pr := patternMatchResult compile settings.protectedPattern fileName
        Warn.invalidProtectedPattern
      if pr.1 then
        (false, pr.2)
      else
        let cr := patternMatchResult compile settings.cleanablePattern fileName
          Warn.invalidCleanablePattern
        (cr.1, pr.2 ++ cr.2)

/-- A node of the vault filesystem tree. `file name stat` carries the
`fs.stat` size result (`none` = stat throws); `okDir name entries` is a
directory `fs.readdir` can list; `badDir name` is a directory whose
`readdir` throws (caught and logged by the walker). -/
inductive FsNode where
  | file (name : String) (stat : Option Nat)
  | okDir (name : String) (entries : List FsNode)
  | badDir (name : String)
deriving Repr

/-- Entry name, as `entry.name` of a `Dirent`. -/
def FsNode.name : FsNode → String
  | .file n _ => n
  | .okDir n _ => n
  | .badDir n => n

/-- `entry.isDirectory()`. -/
def FsNode.isDirectory : FsNode → Bool
  | .file _ _ => false
  | .okDir _ _ => true
  | .badDir _ => true

/-- `entry.isFile()`. -/
def FsNode.isFile : FsNode → Bool
  | .file _ _ => true
  | .okDir _ _ => false
  | .badDir _ => false

/-- The hidden-entry filter both passes apply to a directory listing:
when `excludeHidden`, drop entries whose name starts with `.`. -/
def filterHidden (config : ScanConfig) (entries : List FsNode) : List FsNode :=
  if config.excludeHidden then
    entries.filter (fun e => !(strStartsWith e.name "."))
  else
    entries

/-- `isEmptyDirectory`: readdir the directory (failure → `false`),
filter hidden entries, empty iff zero entries remain. Applied to a
node: a `badDir` (readdir throws) is not empty; a `file` cannot be
readdir'd either. -/
def isEmptyDirectory (config : ScanConfig) : FsNode → Bool
  | .okDir _ entries => (filterHidden config entries).isEmpty
  | .badDir _ => false
  | .file _ _ => false

/-- Recursion worker for `scanEmptyDirectories`. The source guards each
call with `if (depth >= config.maxDepth) return;` and recurses at
`depth + 1`; equivalently, each call carries the remaining budget
`fuel = config.maxDepth - depth` and stops when it is `0`. Body: readdir
(failure → warn and return nothing); filter hidden; for each child
directory, emit it if `isEmptyDirectory`, else recurse. `rel` is the
vault-relative segment path of the directory being listed; the emitted
`ScanItem` has `size = 0` and `selected = false`. -/
def scanEmptyDirectoriesAux (config : ScanConfig) :
    Nat → List String → FsNode → List ScanItem
  | 0, _, _ => []
  | _ + 1, _, .file _ _ => []
  | _ + 1, _, .badDir _ => []
  | fuel + 1, rel, .okDir _ entries =>
    ((filterHidden config entries).filter FsNode.isDirectory).flatMap fun d =>
      if isEmptyDirectory config d then
        [{ path := rel ++ [d.name], name := d.name, type := .directory,
           size := 0, selected := false }]
      else
        scanEmptyDirectoriesAux config fuel (rel ++ [d.name]) d

/-- `scanEmptyDirectories(dirPath, result, config, depth)` as called on
a directory node at traversal depth `depth`. -/
def scanEmptyDirectories (config : ScanConfig) (rel : List String)
    (node : FsNode) (depth : Nat) : List ScanItem :=
  scanEmptyDirectoriesAux config (config.maxDepth - depth) rel node

/-- Recursion worker for `scanUnlinkedFiles`, with the same
depth-guard-as-fuel reading as `scanEmptyDirectoriesAux`. Body: readdir
(failure → warn and return nothing); filter hidden; recurse into each
directory; for each file, if `isUnlinkedFile` accepts it, stat again
and emit a `ScanItem` carrying the stat size. (The second stat cannot
fail in the model because stat results are deterministic; acceptance
already implies the stat succeeded.) -/
def scanUnlinkedFilesAux (compile : String → Option (String → Bool)) (env : ObsidianEnv)
    (settings : CleanFilesSettings) (config : ScanConfig) :
    Nat → List String → FsNode → List ScanItem
  | 0, _, _ => []
  | _ + 1, _, .file _ _ => []
  | _ + 1, _, .badDir _ => []
  | fuel + 1, rel, .okDir _ entries =>
    (filterHidden config entries).flatMap fun e =>
      match e with
      | .okDir _ _ =>
        scanUnlinkedFilesAux compile env settings config fuel (rel ++ [e.name]) e
      | .badDir _ =>
        scanUnlinkedFilesAux compile env settings config fuel (rel ++ [e.name]) e
      | .file fname stat =>
        if (isUnlinkedFile compile env settings stat
              (String.intercalate "/" (rel ++ [fname])) fname config).1 then
          match stat with
          | some sz =>
            [{ path := rel ++ [fname], name := fname, type := .file,
               size := sz, selected := false }]
          | none => []
        else
          []

/-- `scanUnlinkedFiles(dirPath, result, config, depth)` as called on a
directory node at traversal depth `depth`. -/
def scanUnlinkedFiles (compile : String → Option (String → Bool)) (env : ObsidianEnv)
    (settings : CleanFilesSettings) (config : ScanConfig) (rel : List String)
    (node : FsNode) (depth : Nat) : List ScanItem :=
  scanUnlinkedFilesAux compile env settings config (config.maxDepth - depth) rel node

/-- `scanFiles(config?)`: resolve the effective config from settings
and overrides, run both passes from the vault root at depth 0, and
assemble the `ScanResult` with `totalCount` and `totalSize`. The
`try`/`catch` of the source re-throws errors of the two passes, but
both passes catch their own filesystem errors internally, so the
translated body always returns `Except.ok`. -/
def scanFiles (compile : String → Option (String → Bool)) (env : ObsidianEnv)
    (settings : CleanFilesSettings) (root : FsNode)
    (config : PartialScanConfig) : Except String ScanResult :=
  let scanConfig := resolveScanConfig settings config
  let emptyDirectories := scanEmptyDirectories scanConfig [] root 0
  let unlinkedFiles := scanUnlinkedFiles compile env settings scanConfig [] root 0
  .ok
    { emptyDirectories := emptyDirectories
      unlinkedFiles := unlinkedFiles
      totalCount := emptyDirectories.length + unlinkedFiles.length
      totalSize := ((emptyDirectories ++ unlinkedFiles).map ScanItem.size).sum }

/-- The filesystem state deletion acts on: the sets of existing file
paths and directory paths (vault-relative segment lists). -/
structure FsState where
  files : List (List String)
  dirs : List (List String)
deriving DecidableEq, Repr

/-- `q` lies strictly under directory `p`. -/
def strictlyUnder (p q : List String) : Bool :=
  p.isPrefixOf q && p ≠ q

/-- A directory has no remaining children. -/
def dirIsEmpty (fs : FsState) (p : List String) : Bool :=
  !(fs.files.any (strictlyUnder p)) && !(fs.dirs.any (strictlyUnder p))

/-- `fs.rmdir(path)`: fails on a missing directory (`ENOENT`) and on a
non-empty directory (`ENOTEMPTY`); it never deletes contents. -/
def rmdir (fs : FsState) (p : List String) : Except String FsState :=
  if p ∈ fs.dirs then
    if dirIsEmpty fs p then
      .ok { fs with dirs := fs.dirs.erase p }
    else
      .error "ENOTEMPTY"
  else
    .error "ENOENT"

/-- `fs.unlink(path)`: fails on a missing file (`ENOENT`). -/
def unlink (fs : FsState) (p : List String) : Except String FsState :=
  if p ∈ fs.files then
    .ok { fs with files := fs.files.erase p }
  else
    .error "ENOENT"

/-- The error message pushed for a failed item:
`` `删除 ${item.path} 失败: ${error.message}` ``. -/
def deleteErrorMsg (p : List String) (msg : String) : String :=
  "删除 " ++ String.intercalate "/" p ++ " 失败: " ++ msg

/-- The loop body of `deleteItems`: skip unselected items; `rmdir`
directories and `unlink` files; on failure record one error message and
continue with the rest. Returns the final filesystem and the error
list in loop order. -/
def deleteItemsGo (fs : FsState) : List ScanItem → FsState × List String
  | [] => (fs, [])
  | item :: rest =>
    if !item.selected then
      deleteItemsGo fs rest
    else
      match (if item.type == ItemType.directory then rmdir fs item.path
             else unlink fs item.path) with
      | .ok fs' => deleteItemsGo fs' rest
      | .error msg =>
        let r := deleteItemsGo fs rest
        (r.1, deleteErrorMsg item.path msg :: r.2)

/-- `deleteItems(items)`: run the loop and return
`{ success: errors.length === 0, errors }` together with the final
filesystem state. -/
def deleteItems (fs : FsState) (items : List ScanItem) :
    FsState × Bool × List String :=
  let r := deleteItemsGo fs items
  (r.1, r.2.isEmpty, r.2)

/-- The gate at the top of the result view's `handleDelete`: collect
the selected items of both lists; if none is selected, show the
"select items first" notice and return without invoking the core
`deleteItems`. `true` iff the core deletion is reached. -/
def handleDeleteProceeds (scanResult : ScanResult) : Bool :=
  !((scanResult.emptyDirectories ++ scanResult.unlinkedFiles).filter
      (fun item => item.selected)).isEmpty

/-! ### Shared concrete environments for witnesses and counterexamples -/

/-- A regex engine knowing the patterns the examples use: `".*"`
matches everything, `"\\.md$"` matches names ending in `.md`, and
`"("` (and anything else) fails to compile. -/
def cmpEx : String → Option (String → Bool) := fun s =>
  if s == ".*" then some (fun _ => true)
  else if s == "\\.md$" then some (fun n => strStartsWith (⟨n.data.reverse⟩ : String) "dm.")
  else none

/-- An empty host: no tracked documents, no link maps. -/
def envEx : ObsidianEnv := ⟨[], [], fun _ => none, [], []⟩

/-- A host with one tracked markdown document `a.md` (basename `a`)
whose own cache has one outgoing link. -/
def envRef : ObsidianEnv :=
  ⟨[⟨"a.md", "a"⟩], [⟨"a.md", "a"⟩],
   fun p => if p == "a.md" then some ⟨["t"], []⟩ else none, [], []⟩

/-- Example settings: everything cleanable, nothing protected. -/
def stgEx : CleanFilesSettings :=
  { cleanablePattern := ".*", protectedPattern := "", maxScanDepth := 10
    excludeHidden := true, minFileSize := 0 }

/-- Example config: depth limit 1. -/
def cfgEx : ScanConfig := { maxDepth := 1, excludeHidden := true, minFileSize := 0 }

/-! ### C1 -/

/-- C1: if the Reference Resolver (`isReferencedByObsidian`) returns
true for a path, the Classifier (`isUnlinkedFile`) returns false for
that file, for every configuration of `cleanablePattern` and
`protectedPattern`: the reference check precedes both pattern checks
and no cleanable match can override it. -/
theorem referenced_file_never_cleanable
    (compile : String → Option (String → Bool)) (env : ObsidianEnv)
    (settings : CleanFilesSettings) (statSize : Option Nat)
    (relativePath fileName : String) (config : ScanConfig)
    (h : isReferencedByObsidian env relativePath = true) :
    (isUnlinkedFile compile env settings statSize relativePath fileName config).1 = false := by
  cases statSize with
  | none => rfl
  | some s =>
    simp only [isUnlinkedFile, h]
    split <;> simp

/-- Witness for C1 at a concrete referenced document. -/
theorem referenced_file_never_cleanable_witness :
    isReferencedByObsidian envRef "a.md" = true ∧
    (isUnlinkedFile cmpEx envRef stgEx (some 100) "a.md" "a.md" cfgEx).1 = false :=
  ⟨by decide,
   referenced_file_never_cleanable cmpEx envRef stgEx (some 100) "a.md" "a.md" cfgEx
     (by decide)⟩

/-! ### C2 -/

/-- C2: the Classifier follows the ordered, short-circuiting decision:
stat failure → false; size strictly below `minFileSize` → false; a
matching non-empty `protectedPattern` → false even when
`cleanablePattern` also matches (the conjunct holds with no assumption
on the cleanable pattern at all); past the earlier checks, a matching
non-empty `cleanablePattern` → true; and when the cleanable check does
not match (in particular for files matching neither pattern) → false. -/
theorem isUnlinkedFile_ordered_decision
    (compile : String → Option (String → Bool)) (env : ObsidianEnv)
    (settings : CleanFilesSettings) (statSize : Option Nat)
    (relativePath fileName : String) (config : ScanConfig) :
    ((isUnlinkedFile compile env settings none relativePath fileName config).1 = false) ∧
    (∀ s, s < config.minFileSize →
      (isUnlinkedFile compile env settings (some s) relativePath fileName config).1 = false) ∧
    (∀ re, settings.protectedPattern.isEmpty = false →
      (strTrim settings.protectedPattern).isEmpty = false →
      compile settings.protectedPattern = some re → re fileName = true →
      (isUnlinkedFile compile env settings statSize relativePath fileName config).1 = false) ∧
    (∀ s re, ¬ s < config.minFileSize →
      isReferencedByObsidian env relativePath = false →
      (patternMatchResult compile settings.protectedPattern fileName
        Warn.invalidProtectedPattern).1 = false →
      settings.cleanablePattern.isEmpty = false →
      (strTrim settings.cleanablePattern).isEmpty = false →
      compile settings.cleanablePattern = some re → re fileName = true →
      (isUnlinkedFile compile env settings (some s) relativePath fileName config).1 = true) ∧
    ((patternMatchResult compile settings.cleanablePattern fileName
        Warn.invalidCleanablePattern).1 = false →
      (isUnlinkedFile compile env settings statSize relativePath fileName config).1 = false) := by
  refine ⟨rfl, ?_, ?_, ?_, ?_⟩
  · intro s hs
    simp [isUnlinkedFile, hs]
  · intro re hne htrim hcomp hmatch
    cases statSize with
    | none => rfl
    | some s =>
      have hpr : (patternMatchResult compile settings.protectedPattern fileName
          Warn.invalidProtectedPattern).1 = true := by
        simp [patternMatchResult, hne, htrim, hcomp, hmatch]
      simp only [isUnlinkedFile]
      split
      · rfl
      · split
        · rfl
        · simp [hpr]
  · intro s re hs href hpr hne htrim hcomp hmatch
    have hcr : (patternMatchResult compile settings.cleanablePattern fileName
        Warn.invalidCleanablePattern).1 = true := by
      simp [patternMatchResult, hne, htrim, hcomp, hmatch]
    simp [isUnlinkedFile, hs, href, hpr, hcr]
  · intro hcr
    cases statSize with
    | none => rfl
    | some s =>
      simp only [isUnlinkedFile]
      split
      · rfl
      · split
        · rfl
        · split
          · rfl
          · simpa using hcr

/-- Witness for C2: the cleanable branch fires on a concrete
unreferenced `.tmp` file of adequate size. -/
theorem isUnlinkedFile_ordered_decision_witness :
    (isUnlinkedFile cmpEx envEx stgEx (some 100) "a.tmp" "a.tmp" cfgEx).1 = true :=
  (isUnlinkedFile_ordered_decision cmpEx envEx stgEx (some 100) "a.tmp" "a.tmp"
      cfgEx).2.2.2.1 100 (fun _ => true) (by decide) (by decide) (by decide) (by decide)
    (by decide) rfl rfl

/-! ### C7 -/

/-- C7: a pattern source that fails to compile is treated as matching
nothing for that call: an invalid `protectedPattern` protects nothing
(the decision is that of a scan with no protected pattern), an invalid
`cleanablePattern` marks nothing cleanable (the decision is false), and
the corresponding warning is logged whenever the failing compile is
reached. The classifier is a total function, so the decision is always
produced — the scan never aborts on an invalid pattern. -/
theorem invalid_pattern_recovery
    (compile : String → Option (String → Bool)) (env : ObsidianEnv)
    (settings : CleanFilesSettings) (statSize : Option Nat)
    (relativePath fileName : String) (config : ScanConfig) :
    (compile settings.protectedPattern = none →
      (isUnlinkedFile compile env settings statSize relativePath fileName config).1 =
      (isUnlinkedFile compile env { settings with protectedPattern := "" }
        statSize relativePath fileName config).1) ∧
    (∀ s, compile settings.protectedPattern = none →
      (strTrim settings.protectedPattern).isEmpty = false →
      settings.protectedPattern.isEmpty = false →
      statSize = some s → ¬ s < config.minFileSize →
      isReferencedByObsidian env relativePath = false →
      Warn.invalidProtectedPattern ∈
        (isUnlinkedFile compile env settings statSize relativePath fileName config).2) ∧
    (compile settings.cleanablePattern = none →
      (isUnlinkedFile compile env settings statSize relativePath fileName config).1 = false) ∧
    (∀ s, compile settings.cleanablePattern = none →
      (strTrim settings.cleanablePattern).isEmpty = false →
      settings.cleanablePattern.isEmpty = false →
      statSize = some s → ¬ s < config.minFileSize →
      isReferencedByObsidian env relativePath = false →
      (patternMatchResult compile settings.protectedPattern fileName
        Warn.invalidProtectedPattern).1 = false →
      Warn.invalidCleanablePattern ∈
        (isUnlinkedFile compile env settings statSize relativePath fileName config).2) := by
  refine ⟨?_, ?_, ?_, ?_⟩
  · intro hcomp
    cases statSize with
    | none => rfl
    | some s =>
      have hpr : (patternMatchResult compile settings.protectedPattern fileName
          Warn.invalidProtectedPattern).1 = false := by
        simp only [patternMatchResult]
        split
        · simp [hcomp]
        · rfl
      have hpr' : patternMatchResult compile "" fileName
          Warn.invalidProtectedPattern = (false, []) := rfl
      simp [isUnlinkedFile, hpr, hpr']
      split
      · rfl
      · split <;> rfl
  · intro s hcomp htrim hne hstat hs href
    subst hstat
    have hpr : patternMatchResult compile settings.protectedPattern fileName
        Warn.invalidProtectedPattern = (false, [Warn.invalidProtectedPattern]) := by
      simp [patternMatchResult, hne, htrim, hcomp]
    simp [isUnlinkedFile, hs, href, hpr]
  · intro hcomp
    have hcr : (patternMatchResult compile settings.cleanablePattern fileName
        Warn.invalidCleanablePattern).1 = false := by
      simp only [patternMatchResult]
      split
      · simp [hcomp]
      · rfl
    cases statSize with
    | none => rfl
    | some s =>
      simp only [isUnlinkedFile]
      split
      · rfl
      · split
        · rfl
        · split
          · rfl
          · simpa using hcr
  · intro s hcomp htrim hne hstat hs href hpr
    subst hstat
    have hcr : patternMatchResult compile settings.cleanablePattern fileName
        Warn.invalidCleanablePattern = (false, [Warn.invalidCleanablePattern]) := by
      simp [patternMatchResult, hne, htrim, hcomp]
    simp [isUnlinkedFile, hs, href, hpr, hcr]

/-- Witness for C7 with the invalid pattern `"("` from the spec's
scenario: both an invalid protected pattern and an invalid cleanable
pattern, at a concrete unreferenced file. -/
theorem invalid_pattern_recovery_witness :
    ((isUnlinkedFile cmpEx envEx { stgEx with protectedPattern := "(" }
        (some 100) "a.tmp" "a.tmp" cfgEx).1 =
      (isUnlinkedFile cmpEx envEx
        { stgEx with protectedPattern := "" }
        (some 100) "a.tmp" "a.tmp" cfgEx).1) ∧
    Warn.invalidProtectedPattern ∈
      (isUnlinkedFile cmpEx envEx { stgEx with protectedPattern := "(" }
        (some 100) "a.tmp" "a.tmp" cfgEx).2 ∧
    (isUnlinkedFile cmpEx envEx { stgEx with cleanablePattern := "(" }
      (some 100) "a.tmp" "a.tmp" cfgEx).1 = false ∧
    Warn.invalidCleanablePattern ∈
      (isUnlinkedFile cmpEx envEx { stgEx with cleanablePattern := "(" }
        (some 100) "a.tmp" "a.tmp" cfgEx).2 :=
  ⟨(invalid_pattern_recovery cmpEx envEx { stgEx with protectedPattern := "(" }
      (some 100) "a.tmp" "a.tmp" cfgEx).1 rfl,
   (invalid_pattern_recovery cmpEx envEx { stgEx with protectedPattern := "(" }
      (some 100) "a.tmp" "a.tmp" cfgEx).2.1 100 rfl (by decide) (by decide) rfl
      (by decide) (by decide),
   (invalid_pattern_recovery cmpEx envEx { stgEx with cleanablePattern := "(" }
      (some 100) "a.tmp" "a.tmp" cfgEx).2.2.1 rfl,
   (invalid_pattern_recovery cmpEx envEx { stgEx with cleanablePattern := "(" }
      (some 100) "a.tmp" "a.tmp" cfgEx).2.2.2 100 rfl (by decide) (by decide) rfl
      (by decide) (by decide) (by decide)⟩

/-! ### C3: spec-side reference conditions -/

/-- Spec wording: some entry of a link-target map names this path with a
nonzero count. -/
def targetsTruthy (tl : List (String × Nat)) (p : String) : Bool :=
  tl.any fun e => e.1 == p && e.2 != 0

/-- Spec wording: some source document's target map resolves to this
path. -/
def specLinkMapHas (m : List (String × List (String × Nat))) (p : String) : Bool :=
  m.any fun src => targetsTruthy src.2 p

/-- Spec wording: the path denotes a tracked document. -/
def specIsTracked (env : ObsidianEnv) (p : String) : Bool :=
  env.trackedFiles.any fun f => f.path == p

/-- Spec wording: the document's own cache has at least one outgoing
link or embed. -/
def specCacheHasStructure (env : ObsidianEnv) (p : String) : Bool :=
  match env.fileCache p with
  | some c => !c.links.isEmpty || !c.embeds.isEmpty
  | none => false

/-- Spec condition (1): a tracked document whose own cache has at least
one outgoing link or embed. -/
def specCond1 (env : ObsidianEnv) (p : String) : Bool :=
  specIsTracked env p && specCacheHasStructure env p

/-- One indexed document `src` has a link or embed whose target equals
the path `p` or the basename of the document `f` at `p`. -/
def specTargetsDoc (env : ObsidianEnv) (p : String) (f : TFileM) (src : TFileM) : Bool :=
  match env.fileCache src.path with
  | some c =>
      c.links.any (fun l => l == p || l == f.basename) ||
      c.embeds.any (fun l => l == p || l == f.basename)
  | none => false

/-- Spec condition (2): some *other* indexed document has a link or
embed whose target equals this path or this document's extension-less
base name. -/
def specCond2 (env : ObsidianEnv) (p : String) : Bool :=
  env.trackedFiles.any fun f =>
    f.path == p &&
    env.markdownFiles.any fun src => src.path != p && specTargetsDoc env p f src

/-- Spec condition (3): some source in the resolved-link map resolves
to this path. -/
def specCond3 (env : ObsidianEnv) (p : String) : Bool :=
  specLinkMapHas env.resolvedLinks p

/-- Spec condition (4): for a path that is not a tracked document, some
source in the resolved or unresolved link map targets this path. -/
def specCond4 (env : ObsidianEnv) (p : String) : Bool :=
  !specIsTracked env p &&
    (specLinkMapHas env.resolvedLinks p || specLinkMapHas env.unresolvedLinks p)

/-- Well-formedness of the host indices, as JS guarantees them: vault
paths are unique keys, and each link map's per-source target object has
unique keys. -/
def ObsidianEnvWF (env : ObsidianEnv) : Prop :=
  (env.trackedFiles.map TFileM.path).Nodup ∧
  (∀ src ∈ env.resolvedLinks, (src.2.map Prod.fst).Nodup) ∧
  (∀ src ∈ env.unresolvedLinks, (src.2.map Prod.fst).Nodup)

theorem find?_truthy_eq {tl : List (String × Nat)} {p : String}
    (hnd : (tl.map Prod.fst).Nodup) :
    (match tl.find? (fun e => e.1 == p) with
     | some e => e.2 != 0
     | none => false) = targetsTruthy tl p := by
  cases hf : tl.find? (fun e => e.1 == p) with
  | none =>
    have hall := List.find?_eq_none.mp hf
    have hfalse : targetsTruthy tl p = false := by
      unfold targetsTruthy
      rw [List.any_eq_false]
      intro x hx
      have := hall x hx
      simp_all
    simp [hfalse]
  | some e =>
    have hmem : e ∈ tl := List.mem_of_find?_eq_some hf
    have hkey : e.1 = p := by simpa using List.find?_some hf
    by_cases hz : e.2 = 0
    · have hfalse : targetsTruthy tl p = false := by
        unfold targetsTruthy
        rw [List.any_eq_false]
        intro x hx
        simp only [Bool.and_eq_true, beq_iff_eq, bne_iff_ne, ne_eq, not_and]
        intro hx1
        have hxe : x = e := List.inj_on_of_nodup_map hnd hx hmem (by rw [hx1, hkey])
        simp [hxe, hz]
      simp [hfalse, hz]
    · have htrue : targetsTruthy tl p = true := by
        unfold targetsTruthy
        rw [List.any_eq_true]
        exact ⟨e, hmem, by simp [hkey, hz]⟩
      simp [htrue, hz]

theorem linkMapHas_eq_spec (m : List (String × List (String × Nat))) (p : String)
    (h : ∀ src ∈ m, (src.2.map Prod.fst).Nodup) :
    linkMapHas m p = specLinkMapHas m p := by
  induction m with
  | nil => rfl
  | cons src rest ih =>
    have h1 := h src (List.mem_cons_self _ _)
    have h2 : ∀ s ∈ rest, (s.2.map Prod.fst).Nodup :=
      fun s hs => h s (List.mem_cons_of_mem _ hs)
    rw [show linkMapHas (src :: rest) p =
          ((match src.2.find? (fun e => e.1 == p) with
            | some e => e.2 != 0
            | none => false) || linkMapHas rest p) from rfl,
        show specLinkMapHas (src :: rest) p =
          (targetsTruthy src.2 p || specLinkMapHas rest p) from rfl,
        find?_truthy_eq h1, ih h2]

theorem cache_any_structure {c : Cache} {g : String → Bool}
    (h : (c.links.any g || c.embeds.any g) = true) :
    (!c.links.isEmpty || !c.embeds.isEmpty) = true := by
  rcases c with ⟨ls, es⟩
  simp only [Bool.or_eq_true, List.any_eq_true] at h
  rcases h with ⟨l, hl, _⟩ | ⟨l, hl, _⟩
  · cases ls with
    | nil => simp at hl
    | cons a t => simp
  · cases es with
    | nil => simp at hl
    | cons a t => simp

/-! ### C3 -/

/-- C3: the Reference Resolver returns true iff one of the spec's four
conditions holds — (1) tracked document with own outgoing structure,
(2) a link or embed from some other indexed document targeting the path
or the document's basename, (3) some source resolving to the path in
the resolved-link map, (4) for an untracked path, some source targeting
it in the resolved or unresolved map — under the JS well-formedness of
the host indices (unique vault paths, unique keys per link object). -/
theorem isReferencedByObsidian_spec (env : ObsidianEnv) (p : String)
    (hwf : ObsidianEnvWF env) :
    isReferencedByObsidian env p =
      (specCond1 env p || specCond2 env p || specCond3 env p || specCond4 env p) := by
  obtain ⟨hnodup, hres, hunres⟩ := hwf
  cases hfind : env.trackedFiles.find? (fun f => f.path == p) with
  | none =>
    have hall := List.find?_eq_none.mp hfind
    have htr : specIsTracked env p = false := by
      unfold specIsTracked
      rw [List.any_eq_false]
      intro f hf
      exact hall f hf
    have h1 : specCond1 env p = false := by simp [specCond1, htr]
    have h2 : specCond2 env p = false := by
      unfold specCond2
      rw [List.any_eq_false]
      intro f hf
      simp only [Bool.and_eq_true, not_and]
      intro hcontra
      exact absurd hcontra (by simpa using hall f hf)
    have hcode : isReferencedByObsidian env p = checkExternalFileReferences env p := by
      unfold isReferencedByObsidian
      rw [hfind]
    rw [hcode, h1, h2]
    unfold checkExternalFileReferences specCond3 specCond4
    rw [linkMapHas_eq_spec _ _ hres, linkMapHas_eq_spec _ _ hunres, htr]
    cases specLinkMapHas env.resolvedLinks p <;>
      cases specLinkMapHas env.unresolvedLinks p <;> rfl
  | some f =>
    have hfp : f.path = p := by simpa using List.find?_some hfind
    have hmem : f ∈ env.trackedFiles := List.mem_of_find?_eq_some hfind
    have htr : specIsTracked env p = true := by
      unfold specIsTracked
      rw [List.any_eq_true]
      exact ⟨f, hmem, by simp [hfp]⟩
    have h4 : specCond4 env p = false := by simp [specCond4, htr]
    have hOwn : cacheOwnStructure env f.path = specCacheHasStructure env p := by
      rw [hfp]
      unfold cacheOwnStructure specCacheHasStructure
      cases env.fileCache p with
      | none => rfl
      | some c =>
        rcases c with ⟨ls, es⟩
        cases ls <;> cases es <;> simp
    simp only [isReferencedByObsidian, hfind]
    rw [h4, Bool.or_false]
    by_cases hM : cacheOwnStructure env f.path = true
    · rw [if_pos hM]
      have h1 : specCond1 env p = true := by
        unfold specCond1
        rw [htr, Bool.true_and, ← hOwn]
        exact hM
      rw [h1]
      rfl
    · rw [if_neg hM]
      have hMf : cacheOwnStructure env f.path = false := by simpa using hM
      have h1 : specCond1 env p = false := by
        unfold specCond1
        rw [htr, Bool.true_and, ← hOwn]
        exact hMf
      by_cases hB : backlinkScan env p f = true
      · rw [if_pos hB]
        unfold backlinkScan at hB
        rw [List.any_eq_true] at hB
        obtain ⟨src, hsrc, hbody⟩ := hB
        by_cases hsp : src.path = p
        · exfalso
          apply hM
          rw [hOwn]
          unfold specCacheHasStructure
          rw [← hsp]
          cases hc : env.fileCache src.path with
          | none =>
            simp only [hc] at hbody
            exact absurd hbody (by simp)
          | some c =>
            simp only [hc] at hbody ⊢
            exact cache_any_structure hbody
        · have h2 : specCond2 env p = true := by
            unfold specCond2
            rw [List.any_eq_true]
            refine ⟨f, hmem, ?_⟩
            simp only [Bool.and_eq_true, beq_iff_eq]
            refine ⟨hfp, ?_⟩
            rw [List.any_eq_true]
            refine ⟨src, hsrc, ?_⟩
            simp only [Bool.and_eq_true, bne_iff_ne, ne_eq]
            exact ⟨hsp, hbody⟩
          rw [h1, h2]
          rfl
      · rw [if_neg hB]
        have h2 : specCond2 env p = false := by
          unfold specCond2
          rw [List.any_eq_false]
          intro fx hfx
          simp only [Bool.and_eq_true, beq_iff_eq, not_and]
          intro hfpx hc
          have hff : fx = f := List.inj_on_of_nodup_map hnodup hfx hmem (by rw [hfpx, hfp])
          subst hff
          rw [List.any_eq_true] at hc
          obtain ⟨src, hsrc, hb⟩ := hc
          simp only [Bool.and_eq_true] at hb
          apply hB
          unfold backlinkScan
          rw [List.any_eq_true]
          exact ⟨src, hsrc, hb.2⟩
        rw [h1, h2]
        unfold specCond3
        rw [linkMapHas_eq_spec _ _ hres]
        rfl

/-- Witness for C3 at the concrete one-document host `envRef`: the
resolver and the disjunction of spec conditions agree (both true, via
condition 1). -/
theorem isReferencedByObsidian_spec_witness :
    isReferencedByObsidian envRef "a.md" =
      (specCond1 envRef "a.md" || specCond2 envRef "a.md" ||
       specCond3 envRef "a.md" || specCond4 envRef "a.md") ∧
    isReferencedByObsidian envRef "a.md" = true :=
  ⟨isReferencedByObsidian_spec envRef "a.md" ⟨by decide, by decide, by decide⟩,
   by decide⟩

/-! ### C4 -/

/-- The vault of the spec's depth scenario: an unreferenced cleanable
file at `a/shallow.tmp`, traversal depth 1. -/
def treeC4 : FsNode := .okDir "vault" [.okDir "a" [.file "shallow.tmp" (some 100)]]

theorem scanEmptyDirectoriesAux_badDir (config : ScanConfig) (fuel : Nat)
    (rel : List String) (name : String) :
    scanEmptyDirectoriesAux config fuel rel (.badDir name) = [] := by
  cases fuel <;> rfl

theorem scanUnlinkedFilesAux_badDir (compile : String → Option (String → Bool))
    (env : ObsidianEnv) (settings : CleanFilesSettings) (config : ScanConfig)
    (fuel : Nat) (rel : List String) (name : String) :
    scanUnlinkedFilesAux compile env settings config fuel rel (.badDir name) = [] := by
  cases fuel <;> rfl

/-- C4 (refuting the claim; the code contradicts its own settings
documentation, which calls `maxScanDepth = 0` "unlimited"): the guard
`if (depth >= config.maxDepth) return;` sits before the directory is
even listed, so entries at the cutoff level are never evaluated. With
`maxDepth = 1` the unreferenced cleanable `a/shallow.tmp` (depth 1) is
not reported; with `maxDepth = 0` both passes return nothing for every
tree; the same file is reported once `maxDepth = 2`, showing that
classification is not what blocked it. -/
theorem depth_cutoff_entries_not_evaluated :
    (scanUnlinkedFiles cmpEx envEx stgEx
        { maxDepth := 1, excludeHidden := true, minFileSize := 0 } [] treeC4 0 = []) ∧
    (∀ node : FsNode,
      scanUnlinkedFiles cmpEx envEx stgEx
          { maxDepth := 0, excludeHidden := true, minFileSize := 0 } [] node 0 = [] ∧
      scanEmptyDirectories
          { maxDepth := 0, excludeHidden := true, minFileSize := 0 } [] node 0 = []) ∧
    (scanUnlinkedFiles cmpEx envEx stgEx
        { maxDepth := 2, excludeHidden := true, minFileSize := 0 } [] treeC4 0 =
      [{ path := ["a", "shallow.tmp"], name := "shallow.tmp", type := .file,
         size := 100, selected := false }]) := by
  refine ⟨by decide, ?_, by decide⟩
  intro node
  exact ⟨rfl, rfl⟩

/-! ### C5 -/

/-- C5 (counterexample to the claim): with the vault root itself
unreadable, `scanFiles` returns a normal empty `ScanResult` rather
than a scan-level error — the per-directory `catch` in each pass
swallows the root enumeration failure, so the claimed thrown/returned
top-level failure never happens. -/
theorem scanFiles_root_failure_returns_empty_report :
    scanFiles cmpEx envEx stgEx (.badDir "vault") ⟨none, none, none⟩ =
      .ok ⟨[], [], 0, 0⟩ ∧
    ∀ msg : String,
      scanFiles cmpEx envEx stgEx (.badDir "vault") ⟨none, none, none⟩ ≠ .error msg := by
  refine ⟨rfl, ?_⟩
  intro msg h
  have heq : scanFiles cmpEx envEx stgEx (.badDir "vault") ⟨none, none, none⟩ =
      .ok ⟨[], [], 0, 0⟩ := rfl
  rw [heq] at h
  exact Except.noConfusion h

/-- C5 (amended): if the vault root cannot be enumerated, both passes
catch the failure internally (logging a warning) and `scanFiles`
returns an empty `ScanResult` — empty lists, `totalCount = 0`,
`totalSize = 0` — for every configuration; the `try`/`catch` at the
top of `scanFiles` is unreachable for filesystem enumeration
failures. -/
theorem scanFiles_root_unreadable_returns_empty
    (compile : String → Option (String → Bool)) (env : ObsidianEnv)
    (settings : CleanFilesSettings) (name : String) (config : PartialScanConfig) :
    scanFiles compile env settings (.badDir name) config = .ok ⟨[], [], 0, 0⟩ := by
  unfold scanFiles scanEmptyDirectories scanUnlinkedFiles
  simp only [scanEmptyDirectoriesAux_badDir, scanUnlinkedFilesAux_badDir]
  rfl

/-! ### C8 -/

theorem deleteItemsGo_errors_shape (items : List ScanItem) :
    ∀ (fs : FsState) (e : String), e ∈ (deleteItemsGo fs items).2 →
      ∃ it ∈ items, it.selected = true ∧ ∃ m, e = deleteErrorMsg it.path m := by
  induction items with
  | nil =>
    intro fs e he
    simp [deleteItemsGo] at he
  | cons it rest ih =>
    intro fs e he
    by_cases hsel : it.selected = true
    · cases hop : (if it.type == ItemType.directory then rmdir fs it.path
          else unlink fs it.path) with
      | ok fs' =>
        simp only [deleteItemsGo, hsel, Bool.not_true, Bool.false_eq_true, if_false, hop] at he
        obtain ⟨x, hx, hxe⟩ := ih fs' e he
        exact ⟨x, List.mem_cons_of_mem _ hx, hxe⟩
      | error msg =>
        simp only [deleteItemsGo, hsel, Bool.not_true, Bool.false_eq_true, if_false, hop,
          List.mem_cons] at he
        rcases he with he | he
        · exact ⟨it, List.mem_cons_self _ _, hsel, msg, he⟩
        · obtain ⟨x, hx, hxe⟩ := ih fs e he
          exact ⟨x, List.mem_cons_of_mem _ hx, hxe⟩
    · have hsel' : it.selected = false := by simpa using hsel
      simp only [deleteItemsGo, hsel', Bool.not_false, if_true] at he
      obtain ⟨x, hx, hxe⟩ := ih fs e he
      exact ⟨x, List.mem_cons_of_mem _ hx, hxe⟩

/-- C8: `deleteItems` processes only selected items; each selected item
is attempted independently (a failure records one error and the loop
continues on the remaining items against the unchanged state); every
error entry names the path of some selected item; `success` is true
iff `errors` is empty; and a selected directory is removed with
non-recursive `rmdir`, so a directory that is no longer empty fails
with `ENOTEMPTY`, is recorded in `errors`, and its contents survive. -/
theorem deleteItems_contract
    (fs : FsState) (items : List ScanItem) (item : ScanItem) (rest : List ScanItem)
    (msg : String) (q : List String) :
    (item.selected = false → deleteItemsGo fs (item :: rest) = deleteItemsGo fs rest) ∧
    (item.selected = true →
      (if item.type == ItemType.directory then rmdir fs item.path
       else unlink fs item.path) = .error msg →
      deleteItemsGo fs (item :: rest) =
        ((deleteItemsGo fs rest).1,
         deleteErrorMsg item.path msg :: (deleteItemsGo fs rest).2)) ∧
    ((deleteItems fs items).2.1 = (deleteItems fs items).2.2.isEmpty) ∧
    (∀ e ∈ (deleteItems fs items).2.2,
      ∃ it ∈ items, it.selected = true ∧ ∃ m, e = deleteErrorMsg it.path m) ∧
    (item.selected = true → item.type = ItemType.directory → item.path ∈ fs.dirs →
      q ∈ fs.files → strictlyUnder item.path q = true →
      deleteItems fs [item] = (fs, false, [deleteErrorMsg item.path "ENOTEMPTY"]) ∧
      q ∈ (deleteItems fs [item]).1.files) := by
  refine ⟨?_, ?_, rfl, ?_, ?_⟩
  · intro h
    simp [deleteItemsGo, h]
  · intro hsel herr
    simp only [beq_iff_eq] at herr
    simp [deleteItemsGo, hsel, herr]
  · intro e he
    exact deleteItemsGo_errors_shape items fs e he
  · intro hsel htype hdirs hqfile hunder
    have hany : fs.files.any (strictlyUnder item.path) = true :=
      List.any_eq_true.mpr ⟨q, hqfile, hunder⟩
    have hne : dirIsEmpty fs item.path = false := by
      simp [dirIsEmpty, hany]
    have hrm : rmdir fs item.path = .error "ENOTEMPTY" := by
      simp [rmdir, hdirs, hne]
    constructor
    · simp [deleteItems, deleteItemsGo, hsel, htype, hrm]
    · simp only [deleteItems, deleteItemsGo, hsel, htype, hrm]
      simpa using hqfile

/-- Witness for C8: deleting the selected, no-longer-empty directory
`d` fails with one error naming `d`, and the file `d/x` survives. -/
theorem deleteItems_contract_witness :
    deleteItems ⟨[["d", "x"]], [["d"]]⟩ [⟨["d"], "d", .directory, 0, true⟩] =
      (⟨[["d", "x"]], [["d"]]⟩, false, [deleteErrorMsg ["d"] "ENOTEMPTY"]) ∧
    ["d", "x"] ∈
      (deleteItems ⟨[["d", "x"]], [["d"]]⟩ [⟨["d"], "d", .directory, 0, true⟩]).1.files :=
  (deleteItems_contract ⟨[["d", "x"]], [["d"]]⟩ [] ⟨["d"], "d", .directory, 0, true⟩ []
    "" ["d", "x"]).2.2.2.2 rfl rfl (by decide) (by decide) (by decide)

/-! ### C10 -/

theorem deleteItemsGo_none_selected (items : List ScanItem) :
    ∀ fs : FsState, (∀ it ∈ items, it.selected = false) →
      deleteItemsGo fs items = (fs, []) := by
  induction items with
  | nil => intro fs _; rfl
  | cons it rest ih =>
    intro fs h
    have h1 : it.selected = false := h it (List.mem_cons_self _ _)
    simp only [deleteItemsGo, h1, Bool.not_false, if_true]
    exact ih fs fun x hx => h x (List.mem_cons_of_mem _ hx)

/-- C10: calling `deleteItems` with no selected item (including the
empty list) touches nothing: the filesystem state is returned
unchanged, `success` is true and `errors` is empty. The
nothing-selected rejection lives only in the result view's
`handleDelete`, which returns before reaching the core when the
selected sublist of both result lists is empty. -/
theorem deleteItems_nothing_selected
    (fs : FsState) (items : List ScanItem) (scanResult : ScanResult) :
    ((∀ it ∈ items, it.selected = false) → deleteItems fs items = (fs, true, [])) ∧
    ((∀ it ∈ scanResult.emptyDirectories ++ scanResult.unlinkedFiles,
        it.selected = false) →
      handleDeleteProceeds scanResult = false) := by
  constructor
  · intro h
    simp [deleteItems, deleteItemsGo_none_selected items fs h]
  · intro h
    have hfil : (scanResult.emptyDirectories ++ scanResult.unlinkedFiles).filter
        (fun item => item.selected) = [] := by
      rw [List.filter_eq_nil_iff]
      intro a ha
      simp [h a ha]
    simp [handleDeleteProceeds, hfil]

/-- Witness for C10: a nothing-selected batch over a nonempty
filesystem is a no-op with `success = true`, and the view-layer gate
does not proceed. -/
theorem deleteItems_nothing_selected_witness :
    deleteItems ⟨[["a"]], [["d"]]⟩ [⟨["a"], "a", .file, 3, false⟩] =
      (⟨[["a"]], [["d"]]⟩, true, []) ∧
    handleDeleteProceeds ⟨[⟨["d"], "d", .directory, 0, false⟩], [], 1, 0⟩ = false :=
  ⟨(deleteItems_nothing_selected ⟨[["a"]], [["d"]]⟩ [⟨["a"], "a", .file, 3, false⟩]
      ⟨[], [], 0, 0⟩).1 (by decide),
   (deleteItems_nothing_selected ⟨[], []⟩ []
      ⟨[⟨["d"], "d", .directory, 0, false⟩], [], 1, 0⟩).2 (by decide)⟩

/-! ### C9 -/

/-- The spec's traversal depth of a reported entry: hops from the vault
root — for a file, the number of ancestor directories below the root
(`a/b/c/deep.tmp` has depth 3); for a directory, the number of hops
needed to enter it (`assets/empty` has depth 2). -/
def traversalDepth (item : ScanItem) : Nat :=
  match item.type with
  | .directory => item.path.length
  | .file => item.path.length - 1

theorem scanEmptyDirectoriesAux_path_length (config : ScanConfig) :
    ∀ (fuel : Nat) (rel : List String) (node : FsNode) (item : ScanItem),
      item ∈ scanEmptyDirectoriesAux config fuel rel node →
      item.path.length ≤ rel.length + fuel ∧ item.type = ItemType.directory := by
  intro fuel
  induction fuel with
  | zero =>
    intro rel node item h
    simp [scanEmptyDirectoriesAux] at h
  | succ fuel ih =>
    intro rel node item h
    cases node with
    | file n st => simp [scanEmptyDirectoriesAux] at h
    | badDir n => simp [scanEmptyDirectoriesAux] at h
    | okDir n entries =>
      rw [scanEmptyDirectoriesAux, List.mem_flatMap] at h
      obtain ⟨d, hd, hitem⟩ := h
      by_cases he : isEmptyDirectory config d = true
      · rw [if_pos he, List.mem_singleton] at hitem
        subst hitem
        refine ⟨?_, rfl⟩
        simp only [List.length_append, List.length_singleton]
        omega
      · rw [if_neg he] at hitem
        have h2 := ih (rel ++ [d.name]) d item hitem
        refine ⟨?_, h2.2⟩
        have hlen : (rel ++ [d.name]).length = rel.length + 1 := by simp
        omega

theorem scanUnlinkedFilesAux_path_length (compile : String → Option (String → Bool))
    (env : ObsidianEnv) (settings : CleanFilesSettings) (config : ScanConfig) :
    ∀ (fuel : Nat) (rel : List String) (node : FsNode) (item : ScanItem),
      item ∈ scanUnlinkedFilesAux compile env settings config fuel rel node →
      item.path.length ≤ rel.length + fuel ∧ item.type = ItemType.file := by
  intro fuel
  induction fuel with
  | zero =>
    intro rel node item h
    simp [scanUnlinkedFilesAux] at h
  | succ fuel ih =>
    intro rel node item h
    cases node with
    | file n st => simp [scanUnlinkedFilesAux] at h
    | badDir n => simp [scanUnlinkedFilesAux] at h
    | okDir n entries =>
      rw [scanUnlinkedFilesAux, List.mem_flatMap] at h
      obtain ⟨e, he, hitem⟩ := h
      cases e with
      | okDir en es =>
        have h2 := ih (rel ++ [FsNode.name (.okDir en es)]) (.okDir en es) item hitem
        refine ⟨?_, h2.2⟩
        have hlen : (rel ++ [FsNode.name (.okDir en es)]).length = rel.length + 1 := by simp
        omega
      | badDir en =>
        have h2 := ih (rel ++ [FsNode.name (.badDir en)]) (.badDir en) item hitem
        refine ⟨?_, h2.2⟩
        have hlen : (rel ++ [FsNode.name (.badDir en)]).length = rel.length + 1 := by simp
        omega
      | file fname stat =>
        dsimp only at hitem
        by_cases hacc : (isUnlinkedFile compile env settings stat
            (String.intercalate "/" (rel ++ [fname])) fname config).1 = true
        · rw [if_pos hacc] at hitem
          cases stat with
          | none => simp at hitem
          | some sz =>
            rw [List.mem_singleton] at hitem
            subst hitem
            refine ⟨?_, rfl⟩
            simp only [List.length_append, List.length_singleton]
            omega
        · rw [if_neg hacc] at hitem
          simp at hitem

/-- C9: no entry of the returned `ScanResult` — in `emptyDirectories`
or in `unlinkedFiles` — lies at traversal depth strictly greater than
the effective `maxDepth`, for every configuration, host state and
filesystem tree. -/
theorem scan_depth_invariant
    (compile : String → Option (String → Bool)) (env : ObsidianEnv)
    (settings : CleanFilesSettings) (root : FsNode) (config : PartialScanConfig)
    (result : ScanResult)
    (h : scanFiles compile env settings root config = .ok result) :
    ∀ item : ScanItem,
      (item ∈ result.emptyDirectories →
        traversalDepth item ≤ (resolveScanConfig settings config).maxDepth) ∧
      (item ∈ result.unlinkedFiles →
        traversalDepth item ≤ (resolveScanConfig settings config).maxDepth) := by
  simp only [scanFiles, Except.ok.injEq] at h
  subst h
  intro item
  constructor
  · intro hmem
    have h2 := scanEmptyDirectoriesAux_path_length (resolveScanConfig settings config)
      ((resolveScanConfig settings config).maxDepth - 0) [] root item hmem
    simp only [traversalDepth, h2.2]
    have := h2.1
    simp only [List.length_nil] at this
    omega
  · intro hmem
    have h2 := scanUnlinkedFilesAux_path_length compile env settings
      (resolveScanConfig settings config)
      ((resolveScanConfig settings config).maxDepth - 0) [] root item hmem
    simp only [traversalDepth, h2.2]
    have := h2.1
    simp only [List.length_nil] at this
    omega

/-- Witness for C9 on the concrete depth-scenario vault with effective
`maxDepth = 2`: the one reported file sits at depth 1 ≤ 2. -/
theorem scan_depth_invariant_witness :
    traversalDepth
      ⟨["a", "shallow.tmp"], "shallow.tmp", .file, 100, false⟩ ≤ 2 :=
  ((scan_depth_invariant cmpEx envEx stgEx treeC4 ⟨some 2, none, none⟩
      ⟨[], [⟨["a", "shallow.tmp"], "shallow.tmp", .file, 100, false⟩], 1, 100⟩ rfl)
    ⟨["a", "shallow.tmp"], "shallow.tmp", .file, 100, false⟩).2 (by decide)

/-! ### C6 -/

/-- The listing of a directory node (empty for files and unreadable
directories). -/
def FsNode.entriesOf : FsNode → List FsNode
  | .okDir _ es => es
  | .badDir _ => []
  | .file _ _ => []

theorem count_flatMap {α β : Type} [BEq β] (f : α → List β) (b : β) :
    ∀ l : List α, (l.flatMap f).count b = (l.map fun x => (f x).count b).sum := by
  intro l
  induction l with
  | nil => rfl
  | cons a t ih => simp [List.flatMap_cons, List.count_append, ih]

theorem sum_indicator_one {α : Type} (d : α) :
    ∀ l : List α, l.Nodup → d ∈ l → ∀ f : α → Nat,
      f d = 1 → (∀ x ∈ l, x ≠ d → f x = 0) → (l.map f).sum = 1 := by
  intro l
  induction l with
  | nil =>
    intro _ h
    simp at h
  | cons a t ih =>
    intro hnd hd f hfd hf
    rcases List.mem_cons.mp hd with rfl | hd'
    · have hzero : (t.map f).sum = 0 := by
        apply List.sum_eq_zero
        intro y hy
        rw [List.mem_map] at hy
        obtain ⟨x, hx, rfl⟩ := hy
        have hxa : x ≠ d := fun h => (List.nodup_cons.mp hnd).1 (h ▸ hx)
        exact hf x (List.mem_cons_of_mem _ hx) hxa
      simp [hfd, hzero]
    · have ha : a ≠ d := fun h => (List.nodup_cons.mp hnd).1 (h ▸ hd')
      have hfa : f a = 0 := hf a (List.mem_cons_self _ _) ha
      have ht := ih (List.nodup_cons.mp hnd).2 hd' f hfd
        (fun x hx => hf x (List.mem_cons_of_mem _ hx))
      simp [hfa, ht]

theorem scanEmptyDirectoriesAux_path_shape (config : ScanConfig) :
    ∀ (fuel : Nat) (rel : List String) (node : FsNode) (item : ScanItem),
      item ∈ scanEmptyDirectoriesAux config fuel rel node →
      ∃ dname rest, item.path = rel ++ dname :: rest ∧
        dname ∈ ((filterHidden config node.entriesOf).filter FsNode.isDirectory).map
          FsNode.name := by
  intro fuel
  induction fuel with
  | zero =>
    intro rel node item h
    simp [scanEmptyDirectoriesAux] at h
  | succ fuel ih =>
    intro rel node item h
    cases node with
    | file n st => simp [scanEmptyDirectoriesAux] at h
    | badDir n => simp [scanEmptyDirectoriesAux] at h
    | okDir n entries =>
      rw [scanEmptyDirectoriesAux, List.mem_flatMap] at h
      obtain ⟨d, hd, hitem⟩ := h
      by_cases he : isEmptyDirectory config d = true
      · rw [if_pos he, List.mem_singleton] at hitem
        subst hitem
        exact ⟨d.name, [], rfl, List.mem_map_of_mem FsNode.name hd⟩
      · rw [if_neg he] at hitem
        obtain ⟨dn, rest, hpath, _⟩ := ih (rel ++ [d.name]) d item hitem
        refine ⟨d.name, dn :: rest, ?_, List.mem_map_of_mem FsNode.name hd⟩
        rw [hpath, List.append_assoc]
        rfl

/-- C6: directory emptiness is decided on immediate entries after
hidden-entry filtering — a directory whose entries all start with `.`
is empty under `excludeHidden = true` and non-empty under
`excludeHidden = false`; and in the directories pass, an enumerated
child directory found empty contributes exactly one emitted item and
nothing below it appears in the result, while a non-empty one is
recursed into instead (all of its recursive results appear). -/
theorem empty_directory_detection
    (config : ScanConfig) (name : String) (entries : List FsNode)
    (rel : List String) (parentName : String) (parentEntries : List FsNode)
    (depth : Nat) (d : FsNode) :
    ((∀ e ∈ entries, strStartsWith e.name "." = true) →
      isEmptyDirectory { config with excludeHidden := true } (.okDir name entries) = true) ∧
    (entries ≠ [] →
      isEmptyDirectory { config with excludeHidden := false } (.okDir name entries) = false) ∧
    (depth < config.maxDepth →
      ((filterHidden config parentEntries).map FsNode.name).Nodup →
      d ∈ (filterHidden config parentEntries).filter FsNode.isDirectory →
      ((isEmptyDirectory config d = true →
        (scanEmptyDirectories config rel (.okDir parentName parentEntries) depth).count
          ⟨rel ++ [d.name], d.name, .directory, 0, false⟩ = 1 ∧
        ∀ item ∈ scanEmptyDirectories config rel (.okDir parentName parentEntries) depth,
          ¬(rel ++ [d.name] <+: item.path ∧ item.path ≠ rel ++ [d.name])) ∧
      (isEmptyDirectory config d = false →
        ∀ item ∈ scanEmptyDirectories config (rel ++ [d.name]) d (depth + 1),
          item ∈ scanEmptyDirectories config rel (.okDir parentName parentEntries) depth))) := by
  refine ⟨?_, ?_, ?_⟩
  · intro h
    show ((filterHidden { config with excludeHidden := true } entries).isEmpty) = true
    rw [List.isEmpty_iff]
    show entries.filter (fun e => !(strStartsWith e.name ".")) = []
    rw [List.filter_eq_nil_iff]
    intro a ha
    simp [h a ha]
  · intro h
    cases entries with
    | nil => exact absurd rfl h
    | cons a t => rfl
  · intro hdepth hnodup hd
    have hfuel : config.maxDepth - depth = (config.maxDepth - depth - 1) + 1 := by omega
    set fuel := config.maxDepth - depth - 1 with hfueldef
    have hunfold : scanEmptyDirectories config rel (.okDir parentName parentEntries) depth =
        ((filterHidden config parentEntries).filter FsNode.isDirectory).flatMap
          (fun x => if isEmptyDirectory config x then
              [{ path := rel ++ [x.name], name := x.name, type := .directory,
                 size := 0, selected := false }]
            else scanEmptyDirectoriesAux config fuel (rel ++ [x.name]) x) := by
      unfold scanEmptyDirectories
      rw [hfuel]
      rfl
    have hdirsnodup :
        (((filterHidden config parentEntries).filter FsNode.isDirectory).map
          FsNode.name).Nodup :=
      hnodup.sublist ((List.filter_sublist _).map FsNode.name)
    have hinj : ∀ x ∈ (filterHidden config parentEntries).filter FsNode.isDirectory,
        x.name = d.name → x = d := fun x hx hname =>
      List.inj_on_of_nodup_map hdirsnodup hx hd hname
    have hdirnodup : ((filterHidden config parentEntries).filter FsNode.isDirectory).Nodup :=
      List.Nodup.of_map FsNode.name hdirsnodup
    constructor
    · intro hempty
      constructor
      · rw [hunfold, count_flatMap]
        apply sum_indicator_one d _ hdirnodup hd
        · rw [if_pos hempty]
          simp
        · intro x hx hxd
          have hxname : x.name ≠ d.name := fun h => hxd (hinj x hx h)
          by_cases hxe : isEmptyDirectory config x = true
          · rw [if_pos hxe, List.count_eq_zero, List.mem_singleton]
            intro hcontra
            exact hxname (by
              have := congrArg ScanItem.name hcontra
              simpa using this.symm)
          · rw [if_neg hxe, List.count_eq_zero]
            intro hcontra
            obtain ⟨dn, rest, hpath, _⟩ :=
              scanEmptyDirectoriesAux_path_shape config fuel (rel ++ [x.name]) x _ hcontra
            have hlen := congrArg List.length hpath
            simp at hlen
      · rw [hunfold]
        intro item hmem hcontra
        obtain ⟨hpre, hneq⟩ := hcontra
        rw [List.mem_flatMap] at hmem
        obtain ⟨x, hx, hgx⟩ := hmem
        by_cases hxd : x = d
        · subst hxd
          rw [if_pos hempty, List.mem_singleton] at hgx
          subst hgx
          exact hneq rfl
        · have hxname : x.name ≠ d.name := fun h => hxd (hinj x hx h)
          by_cases hxe : isEmptyDirectory config x = true
          · rw [if_pos hxe, List.mem_singleton] at hgx
            subst hgx
            dsimp only at hpre
            rw [List.prefix_append_right_inj, List.cons_prefix_cons] at hpre
            exact hxname hpre.1.symm
          · rw [if_neg hxe] at hgx
            obtain ⟨dn, rest, hpath, _⟩ :=
              scanEmptyDirectoriesAux_path_shape config fuel (rel ++ [x.name]) x item hgx
            rw [hpath, List.append_assoc] at hpre
            simp only [List.cons_append, List.nil_append] at hpre
            rw [List.prefix_append_right_inj, List.cons_prefix_cons] at hpre
            exact hxname hpre.1.symm
    · intro hne item hmem
      have heq2 : config.maxDepth - (depth + 1) = fuel := by omega
      unfold scanEmptyDirectories at hmem
      rw [heq2] at hmem
      rw [hunfold, List.mem_flatMap]
      refine ⟨d, hd, ?_⟩
      rw [if_neg (by simp [hne])]
      exact hmem

/-- Witness for C6 on a concrete vault: directory `e` contains only the
hidden `.DS_Store`; with `excludeHidden = true` it is empty and emitted
exactly once by the directories pass; with `excludeHidden = false` it
is non-empty. -/
theorem empty_directory_detection_witness :
    isEmptyDirectory ⟨2, true, 0⟩ (.okDir "e" [.file ".DS_Store" (some 1)]) = true ∧
    isEmptyDirectory ⟨2, false, 0⟩ (.okDir "e" [.file ".DS_Store" (some 1)]) = false ∧
    (scanEmptyDirectories ⟨2, true, 0⟩ []
        (.okDir "vault" [.okDir "e" [.file ".DS_Store" (some 1)]]) 0).count
      ⟨["e"], "e", .directory, 0, false⟩ = 1 :=
  ⟨(empty_directory_detection ⟨2, true, 0⟩ "e" [.file ".DS_Store" (some 1)] [] "vault"
      [.okDir "e" [.file ".DS_Store" (some 1)]] 0
      (.okDir "e" [.file ".DS_Store" (some 1)])).1 (by decide),
   (empty_directory_detection ⟨2, false, 0⟩ "e" [.file ".DS_Store" (some 1)] [] "vault"
      [.okDir "e" [.file ".DS_Store" (some 1)]] 0
      (.okDir "e" [.file ".DS_Store" (some 1)])).2.1 (List.cons_ne_nil _ _),
   (((empty_directory_detection ⟨2, true, 0⟩ "e" [.file ".DS_Store" (some 1)] [] "vault"
        [.okDir "e" [.file ".DS_Store" (some 1)]] 0
        (.okDir "e" [.file ".DS_Store" (some 1)])).2.2
      (by decide) (by decide) (List.mem_singleton.mpr rfl)).1 (by decide)).1⟩
